import Mathlib

/-!
Shallow embedding of the Temporium binary snapshot subsystem
(src/temporium/src/database_manager.cpp together with the packed layouts in
src/temporium/include/types.h): the record codec, the snapshot writer
`writeGamesToFile`, the verifier `verifyBinaryFile`, the preview reader
`readBinaryFile` and the importer `importFromBinaryFile`.

Modelling conventions.  A file is `Option (List Byte)`: `none` is a path
that cannot be opened, `some bytes` the file's contents.  C++ `double`
fields carry no arithmetic in this subsystem (they are copied verbatim
into and out of the packed record), so they are modelled by their 64-bit
patterns as `Nat`; `int` / `int32_t` fields are `Int`, serialised in
two's complement.  Strings are byte lists.  `std::ifstream::read`
semantics are modelled explicitly: a short read stores the available
bytes and leaves the remainder of the destination buffer untouched, and
once the stream has failed every later read leaves its buffer untouched.
-/

namespace Temporium

abbrev Byte := Fin 256

/-- Little-endian base-256 serialisation of `n` into `k` bytes: the bytes
of a fixed-width unsigned integer field of a packed struct on a
little-endian machine. -/
def toBytesLE : Nat → Nat → List Byte
  | 0, _ => []
  | k + 1, n => ⟨n % 256, Nat.mod_lt _ (by omega)⟩ :: toBytesLE k (n / 256)

/-- Little-endian base-256 value of a byte list. -/
def fromBytesLE (l : List Byte) : Nat :=
  l.foldr (fun b acc => b.val + 256 * acc) 0

/-- The sub-list of `k` bytes starting at offset `off`: reading a
fixed-width field out of a byte buffer. -/
def sliceAt (bs : List Byte) (off k : Nat) : List Byte :=
  (bs.drop off).take k

/-- The single byte at offset `off` (0 past the end). -/
def byteAt (bs : List Byte) (off : Nat) : Byte :=
  (bs.drop off).headD 0

/-- `std::strncpy(dest, src, cap - 1)` into a `memset`-zeroed `char[cap]`
field: copies `src` up to its first NUL byte and to at most `cap - 1`
bytes, and leaves every remaining byte of the field zero. -/
def cstrWrite (cap : Nat) (s : List Byte) : List Byte :=
  (s.takeWhile (fun b => b != 0)).take (cap - 1) ++
    List.replicate (cap - ((s.takeWhile (fun b => b != 0)).take (cap - 1)).length) 0

/-- Reading a `char[...]` field into `std::string`: the bytes up to the
first NUL. -/
def cstrRead (f : List Byte) : List Byte :=
  f.takeWhile (fun b => b != 0)

/-- A C++ `bool` stored as a single byte, 1 or 0. -/
def boolByte (b : Bool) : Byte :=
  if b then 1 else 0

/-- Two's-complement serialisation of an `int32_t` to 4 bytes. -/
def encInt32 (i : Int) : List Byte :=
  toBytesLE 4 (i % 4294967296).toNat

/-- Reading 4 bytes back as an `int32_t` value. -/
def decInt32 (bs : List Byte) : Int :=
  if fromBytesLE bs < 2147483648 then (fromBytesLE bs : Int)
  else (fromBytesLE bs : Int) - 4294967296

namespace HashUtils

/-- ASCII hex digit (lowercase), as produced by
`HashUtils::bytesToHex`. -/
def hexDigit (d : Nat) : Byte :=
  if d < 10 then ⟨(48 + d) % 256, Nat.mod_lt _ (by omega)⟩
  else ⟨(87 + d) % 256, Nat.mod_lt _ (by omega)⟩

/-- A 64-character ASCII-hex string holding the value `n < 4096` in its
last three digits, zero-padded on the left to the digest slot's width. -/
def hexEncode (n : Nat) : List Byte :=
  List.replicate 61 (⟨48, by omega⟩ : Byte) ++
    [hexDigit (n / 256), hexDigit (n / 16 % 16), hexDigit (n % 16)]

/-- Position-sensitive digest value of a byte buffer: the base-256
polynomial of the bytes reduced mod 257. -/
def polyDigest (l : List Byte) : Nat :=
  l.foldr (fun b acc => (b.val + acc * 256) % 257) 0

/-- Modelled from the spec: `HashUtils::sha256` (src/unnamed/part_000)
delegates the digest computation to OpenSSL's `SHA256_Update`, which is
outside this repository, so the compression function itself cannot be
embedded from source.  The spec's Content Hasher contract is modelled:
a pure, deterministic digest of the payload bytes, emitted as a
fixed-width 64-character ASCII-hex string (identical for identical
inputs, well-defined on the empty input) and able to detect corruption
or tampering of the payload, which the mod-257 polynomial digest
provides for any single-byte change. -/
def sha256 (p : List Byte) : List Byte :=
  hexEncode (polyDigest p)

end HashUtils

/-- The domain record `Temporium::Game` (types.h).  Text fields are byte
lists; `double` fields are 64-bit patterns. -/
structure Game where
  id : Int
  name : List Byte
  disk_space : Nat
  ram_usage : Nat
  vram_required : Nat
  genre : List Byte
  completed : Bool
  url : List Byte
  user_id : Int
  rating : Int
  is_favorite : Bool
  is_installed : Bool
  notes : List Byte
  tags : List Byte
deriving DecidableEq

/-- The `Game()` default constructor: zero ids and measures, empty
strings, `rating = -1`, all flags false. -/
def defaultGame : Game :=
  ⟨0, [], 0, 0, 0, [], false, [], 0, -1, false, false, [], []⟩

/-- `FILE_MAGIC = 0x54454D50` (types.h). -/
def FILE_MAGIC : Nat := 0x54454D50

/-- `FILE_VERSION = 3` (types.h). -/
def FILE_VERSION : Nat := 3

/-- `Temporium::FileVerificationResult` (database_manager.h section of
types.h). -/
inductive FileVerificationResult where
  | ok
  | fileNotFound
  | invalidMagic
  | invalidVersion
  | hashMismatch
  | readError
deriving DecidableEq

/-- The bytes of one packed `BinaryGameRecord` (types.h, 2151 bytes):
id, name[256], three doubles, genre[64], completed, url[512], user_id,
rating, is_favorite, is_installed, notes[1024], tags[256], exactly as
`writeGamesToFile` fills it from a `Game`. -/
def encodeRecord (g : Game) : List Byte :=
  encInt32 g.id ++
  cstrWrite 256 g.name ++
  toBytesLE 8 g.disk_space ++
  toBytesLE 8 g.ram_usage ++
  toBytesLE 8 g.vram_required ++
  cstrWrite 64 g.genre ++
  [boolByte g.completed] ++
  cstrWrite 512 g.url ++
  encInt32 g.user_id ++
  encInt32 g.rating ++
  [boolByte g.is_favorite] ++
  [boolByte g.is_installed] ++
  cstrWrite 1024 g.notes ++
  cstrWrite 256 g.tags

/-- The bytes of a default-constructed `BinaryGameRecord` (`memset` to 0
except `rating = -1`), which is exactly the encoding of the default
`Game`. -/
def defaultRecordBytes : List Byte :=
  encodeRecord defaultGame

/-- The full per-record decode used by `readBinaryFile`: every field of
the current on-disk layout is copied back into a `Game`. -/
def decodeRecordFull (bs : List Byte) : Game where
  id := decInt32 (sliceAt bs 0 4)
  name := cstrRead (sliceAt bs 4 256)
  disk_space := fromBytesLE (sliceAt bs 260 8)
  ram_usage := fromBytesLE (sliceAt bs 268 8)
  vram_required := fromBytesLE (sliceAt bs 276 8)
  genre := cstrRead (sliceAt bs 284 64)
  completed := byteAt bs 348 != 0
  url := cstrRead (sliceAt bs 349 512)
  user_id := decInt32 (sliceAt bs 861 4)
  rating := decInt32 (sliceAt bs 865 4)
  is_favorite := byteAt bs 869 != 0
  is_installed := byteAt bs 870 != 0
  notes := cstrRead (sliceAt bs 871 1024)
  tags := cstrRead (sliceAt bs 1895 256)

/-- The per-record decode used by `importFromBinaryFile`: only name, the
three measures, genre, completed and url are copied from the record; the
owner is the caller-supplied `uid`, and id, rating, flags, notes and
tags keep their `Game()` defaults. -/
def decodeRecordImport (uid : Int) (bs : List Byte) : Game where
  id := 0
  name := cstrRead (sliceAt bs 4 256)
  disk_space := fromBytesLE (sliceAt bs 260 8)
  ram_usage := fromBytesLE (sliceAt bs 268 8)
  vram_required := fromBytesLE (sliceAt bs 276 8)
  genre := cstrRead (sliceAt bs 284 64)
  completed := byteAt bs 348 != 0
  url := cstrRead (sliceAt bs 349 512)
  user_id := uid
  rating := -1
  is_favorite := false
  is_installed := false
  notes := []
  tags := []

/-- The packed `BinaryFileHeader` (types.h, 100 bytes). -/
structure BinaryFileHeader where
  magic : Nat
  version : Nat
  record_count : Nat
  hash : List Byte
deriving DecidableEq

/-- Serialised header bytes: magic u32, version u16, record_count u32,
a 64-byte hash slot (`memset` to 0 then `memcpy` of at most 64 digest
bytes) and 26 reserved zero bytes. -/
def encodeHeader (h : BinaryFileHeader) : List Byte :=
  toBytesLE 4 h.magic ++
  toBytesLE 2 h.version ++
  toBytesLE 4 h.record_count ++
  (h.hash.take 64 ++ List.replicate (64 - h.hash.length) 0) ++
  List.replicate 26 0

/-- Header fields read back from 100 header bytes (reserved ignored). -/
def decodeHeader (bs : List Byte) : BinaryFileHeader where
  magic := fromBytesLE (sliceAt bs 0 4)
  version := fromBytesLE (sliceAt bs 4 2)
  record_count := fromBytesLE (sliceAt bs 6 4)
  hash := sliceAt bs 10 64

/-- The bytes of a default-constructed `BinaryFileHeader`: current magic
and version, zero count, zeroed hash slot and reserved bytes. -/
def defaultHeaderBytes : List Byte :=
  encodeHeader ⟨FILE_MAGIC, FILE_VERSION, 0, List.replicate 64 0⟩

/-- The concatenated raw record bytes of a game list: the payload the
digest is computed over. -/
def payloadOf (games : List Game) : List Byte :=
  (games.map encodeRecord).flatten

/-- `DatabaseManager::writeGamesToFile`, successful path: the bytes of
the produced snapshot file — a header carrying the current magic and
version, the record count and the payload digest, followed by the
encoded records. -/
def writeGamesToFile (games : List Game) : List Byte :=
  encodeHeader ⟨FILE_MAGIC, FILE_VERSION, games.length,
    HashUtils.sha256 (payloadOf games)⟩ ++ payloadOf games

/-- `DatabaseManager::verifyBinaryFile`: open, read one header (a short
read is `READ_ERROR`), gate on magic then version (3 or 1 accepted),
read `record_count` current-shape records, recompute the digest of those
bytes and compare it with the stored 64-byte hash slot. -/
def verifyBinaryFile : Option (List Byte) → FileVerificationResult
  | none => .fileNotFound
  | some bytes =>
    if bytes.length < 100 then .readError
    else if (decodeHeader (bytes.take 100)).magic ≠ FILE_MAGIC then .invalidMagic
    else if (decodeHeader (bytes.take 100)).version ≠ FILE_VERSION ∧
        (decodeHeader (bytes.take 100)).version ≠ 1 then .invalidVersion
    else if 0 < (decodeHeader (bytes.take 100)).record_count ∧
        bytes.length < 100 + (decodeHeader (bytes.take 100)).record_count * 2151 then
      .readError
    else if HashUtils.sha256
        ((bytes.drop 100).take ((decodeHeader (bytes.take 100)).record_count * 2151)) ≠
        (decodeHeader (bytes.take 100)).hash then
      .hashMismatch
    else .ok

/-- The bytes a default-constructed header holds after a (possibly
short) `file.read` of 100 bytes: the file's bytes, then the
constructor's bytes for whatever the read did not reach. -/
def headerReadBytes (bytes : List Byte) : List Byte :=
  bytes.take 100 ++ defaultHeaderBytes.drop bytes.length

/-- The bytes a default-constructed `BinaryGameRecord` holds after the
reader's `file.read` of record `i` (records start at offset
`100 + i * 2151`): the available file bytes, then the constructor's
bytes for whatever the read did not reach; in particular an untouched
default record once the stream has failed. -/
def recordReadBytes (bytes : List Byte) (i : Nat) : List Byte :=
  (bytes.drop (100 + i * 2151)).take 2151 ++
    defaultRecordBytes.drop (bytes.length - (100 + i * 2151))

/-- `DatabaseManager::readBinaryFile` (preview): reads a header (without
checking the stream), rejects only a wrong magic, then decodes
`record_count` current-shape records with full field fidelity,
never checking per-record read success. -/
def readBinaryFile : Option (List Byte) → List Game
  | none => []
  | some bytes =>
    if (decodeHeader (headerReadBytes bytes)).magic ≠ FILE_MAGIC then []
    else
      (List.range (decodeHeader (headerReadBytes bytes)).record_count).map fun i =>
        decodeRecordFull
          (if bytes.length < 100 then defaultRecordBytes else recordReadBytes bytes i)

/-- `DatabaseManager::getVerificationErrorText`. -/
def getVerificationErrorText : FileVerificationResult → String
  | .ok => "Файл корректен"
  | .fileNotFound => "Файл не найден"
  | .invalidMagic => "Неверный формат файла (не является файлом Temporium)"
  | .invalidVersion => "Неподдерживаемая версия формата файла"
  | .hashMismatch => "Файл поврежден или модифицирован (контрольная сумма не совпадает)"
  | .readError => "Ошибка чтения файла"

/-- Result of an import: the returned flag, the games handed one by one
to the store's `addGame`, and the error text placed in `last_error_`
when verification aborts the import. -/
structure ImportResult where
  success : Bool
  added : List Game
  error : Option String
deriving DecidableEq

/-- `DatabaseManager::importFromBinaryFile`: verification first — any
outcome other than `OK` aborts with that outcome's error text and no
insert; on `OK` the file is re-read and each record is decoded with
`decodeRecordImport`, re-homed to the supplied owner, and handed to
`addGame`. -/
def importFromBinaryFile (file : Option (List Byte)) (uid : Int) : ImportResult :=
  match file with
  | none => ⟨false, [], some (getVerificationErrorText .fileNotFound)⟩
  | some bytes =>
    if verifyBinaryFile (some bytes) = .ok then
      ⟨true,
        (List.range (decodeHeader (headerReadBytes bytes)).record_count).map fun i =>
          decodeRecordImport uid
            (if bytes.length < 100 then defaultRecordBytes else recordReadBytes bytes i),
        none⟩
    else ⟨false, [], some (getVerificationErrorText (verifyBinaryFile (some bytes)))⟩

/-- No NUL byte occurs in a text field: the property that makes the
C-string round trip through a `char[...]` field lossless. -/
def NoNul (s : List Byte) : Prop :=
  ∀ b ∈ s, b ≠ 0

instance (s : List Byte) : Decidable (NoNul s) :=
  inferInstanceAs (Decidable (∀ b ∈ s, b ≠ 0))

/-- A game whose fields fit their on-disk encodings: text fields are
NUL-free and within capacity minus one, `int` fields are in `int32_t`
range, double patterns are 64-bit. -/
def ValidGame (g : Game) : Prop :=
  -2147483648 ≤ g.id ∧ g.id < 2147483648 ∧
  NoNul g.name ∧ g.name.length ≤ 255 ∧
  g.disk_space < 18446744073709551616 ∧
  g.ram_usage < 18446744073709551616 ∧
  g.vram_required < 18446744073709551616 ∧
  NoNul g.genre ∧ g.genre.length ≤ 63 ∧
  NoNul g.url ∧ g.url.length ≤ 511 ∧
  -2147483648 ≤ g.user_id ∧ g.user_id < 2147483648 ∧
  -2147483648 ≤ g.rating ∧ g.rating < 2147483648 ∧
  NoNul g.notes ∧ g.notes.length ≤ 1023 ∧
  NoNul g.tags ∧ g.tags.length ≤ 255

instance (g : Game) : Decidable (ValidGame g) := by
  unfold ValidGame; infer_instance

/-! ## Concrete inputs for the counterexample and the witnesses -/

/-- A small concrete game (id 5, owner 7, two-byte name) used as witness
input. -/
def sampleGame : Game :=
  ⟨5, [104, 105], 12, 3, 7, [82], true, [103], 7, -1, true, false, [110], [116]⟩

/-- A game whose 257-byte name exceeds the name field's 256-byte
capacity. -/
def longNameGame : Game :=
  { defaultGame with name := List.replicate 257 97 }

/-- One record of the legacy on-disk shape: the strict 865-byte prefix of
the current `BinaryGameRecord` (through `user_id`, before the rating,
flag, notes and tags fields were appended), all fields zero. -/
def legacyRecordBytes : List Byte :=
  List.replicate 865 0

/-- A version-1 snapshot holding one legacy-shape record, with the hash
slot holding the digest of exactly that payload. -/
def legacyV1File : List Byte :=
  encodeHeader ⟨FILE_MAGIC, 1, 1, HashUtils.sha256 legacyRecordBytes⟩ ++
    legacyRecordBytes

/-- A snapshot built exactly like the writer's output but declaring the
legacy version 1 in its header, over current-shape records. -/
def writeV1GamesToFile (games : List Game) : List Byte :=
  encodeHeader ⟨FILE_MAGIC, 1, games.length, HashUtils.sha256 (payloadOf games)⟩ ++
    payloadOf games

/-- A 100-byte file of zeros: a full header whose magic is wrong. -/
def zeroHeaderFile : List Byte :=
  List.replicate 100 0

/-- A bare header declaring two records with no record bytes behind
it. -/
def headerOnlyTwo : List Byte :=
  encodeHeader ⟨FILE_MAGIC, FILE_VERSION, 2, List.replicate 64 0⟩

/-- Correct magic but unaccepted version 99 and a zeroed hash slot, over
one current-shape record: unverifiable yet preview-readable. -/
def badVersionFile : List Byte :=
  encodeHeader ⟨FILE_MAGIC, 99, 1, List.replicate 64 0⟩ ++ payloadOf [sampleGame]

/-! ## Serialisation primitives: lemmas -/

theorem length_toBytesLE (k n : Nat) : (toBytesLE k n).length = k := by
  induction k generalizing n with
  | zero => rfl
  | succ k ih => simp [toBytesLE, ih]

theorem fromBytesLE_nil : fromBytesLE [] = 0 := rfl

theorem fromBytesLE_cons (b : Byte) (l : List Byte) :
    fromBytesLE (b :: l) = b.val + 256 * fromBytesLE l := rfl

theorem fromBytesLE_toBytesLE {k n : Nat} (h : n < 256 ^ k) :
    fromBytesLE (toBytesLE k n) = n := by
  induction k generalizing n with
  | zero =>
    have : n = 0 := by simpa using h
    simp [this, toBytesLE, fromBytesLE_nil]
  | succ k ih =>
    have h2 : n / 256 < 256 ^ k := by
      rw [Nat.div_lt_iff_lt_mul (by omega)]
      calc n < 256 ^ (k + 1) := h
        _ = 256 ^ k * 256 := by ring
    rw [toBytesLE, fromBytesLE_cons, ih h2]
    show n % 256 + 256 * (n / 256) = n
    omega

theorem encInt32_length (i : Int) : (encInt32 i).length = 4 := by
  simp [encInt32, length_toBytesLE]

theorem decInt32_encInt32 {i : Int} (h1 : -2147483648 ≤ i) (h2 : i < 2147483648) :
    decInt32 (encInt32 i) = i := by
  have hp : (256 : Nat) ^ 4 = 4294967296 := by norm_num
  have hb : (i % 4294967296).toNat < 256 ^ 4 := by omega
  unfold decInt32 encInt32
  rw [fromBytesLE_toBytesLE hb]
  split <;> omega

theorem cstrWrite_length (cap : Nat) (s : List Byte) : (cstrWrite cap s).length = cap := by
  have ht : ((s.takeWhile fun b => b != 0).take (cap - 1)).length ≤ cap - 1 := by
    simp [List.length_take]
  simp only [cstrWrite, List.length_append, List.length_replicate]
  omega

theorem takeWhile_eq_self_of_noNul {s : List Byte} (h : NoNul s) :
    s.takeWhile (fun b => b != 0) = s := by
  induction s with
  | nil => rfl
  | cons a t ih =>
    have ha : (a != 0) = true := by simpa [bne_iff_ne] using h a (by simp)
    simp [List.takeWhile_cons, ha, ih fun b hb => h b (by simp [hb])]

theorem takeWhile_replicate_zero (n : Nat) :
    (List.replicate n (0 : Byte)).takeWhile (fun b => b != 0) = [] := by
  cases n with
  | zero => rfl
  | succ m => simp [List.replicate_succ, List.takeWhile_cons]

theorem cstrRead_append_zeros {s : List Byte} (h : NoNul s) (n : Nat) :
    cstrRead (s ++ List.replicate n 0) = s := by
  unfold cstrRead
  rw [List.takeWhile_append, takeWhile_eq_self_of_noNul h]
  simp [takeWhile_replicate_zero]

theorem cstrRead_cstrWrite {cap : Nat} {s : List Byte} (h : NoNul s)
    (hl : s.length ≤ cap - 1) : cstrRead (cstrWrite cap s) = s := by
  unfold cstrWrite
  rw [takeWhile_eq_self_of_noNul h, List.take_of_length_le hl]
  exact cstrRead_append_zeros h _

theorem boolByte_bne (b : Bool) : (boolByte b != 0) = b := by
  cases b <;> decide

theorem sliceAt_append_shift {a : List Byte} (b : List Byte) {off : Nat} (k : Nat)
    (h : a.length ≤ off) : sliceAt (a ++ b) off k = sliceAt b (off - a.length) k := by
  unfold sliceAt
  rw [List.drop_append_eq_append_drop, List.drop_eq_nil_of_le h]
  simp

theorem byteAt_append_shift {a : List Byte} (b : List Byte) {off : Nat}
    (h : a.length ≤ off) : byteAt (a ++ b) off = byteAt b (off - a.length) := by
  unfold byteAt
  rw [List.drop_append_eq_append_drop, List.drop_eq_nil_of_le h]
  simp

/-! ## Digest lemmas -/

theorem polyDigest_nil : HashUtils.polyDigest [] = 0 := rfl

theorem polyDigest_cons (b : Byte) (l : List Byte) :
    HashUtils.polyDigest (b :: l) =
      (b.val + HashUtils.polyDigest l * 256) % 257 := rfl

theorem polyDigest_lt (l : List Byte) : HashUtils.polyDigest l < 257 := by
  cases l with
  | nil => simp [polyDigest_nil]
  | cons b t => rw [polyDigest_cons]; exact Nat.mod_lt _ (by omega)

/-- Changing a single byte of a buffer changes its polynomial digest. -/
theorem polyDigest_set_ne (l : List Byte) (i : Nat) (v : Byte)
    (hi : i < l.length) (hv : l.getD i 0 ≠ v) :
    HashUtils.polyDigest (l.set i v) ≠ HashUtils.polyDigest l := by
  induction l generalizing i with
  | nil => simp at hi
  | cons a t ih =>
    cases i with
    | zero =>
      have hne : a ≠ v := by simpa using hv
      have hval : a.val ≠ v.val := fun hh => hne (Fin.ext hh)
      rw [List.set_cons_zero, polyDigest_cons, polyDigest_cons]
      have hd : HashUtils.polyDigest t < 257 := polyDigest_lt t
      have ha : a.val < 256 := a.isLt
      have hvv : v.val < 256 := v.isLt
      omega
    | succ i =>
      have hi' : i < t.length := by simpa using hi
      have hv' : t.getD i 0 ≠ v := by simpa using hv
      have hne := ih i hi' hv'
      rw [List.set_cons_succ, polyDigest_cons, polyDigest_cons]
      have hd1 : HashUtils.polyDigest (t.set i v) < 257 := polyDigest_lt _
      have hd2 : HashUtils.polyDigest t < 257 := polyDigest_lt t
      have ha : a.val < 256 := a.isLt
      omega

theorem hexDigit_injOn {d e : Nat} (hd : d < 16) (he : e < 16)
    (h : HashUtils.hexDigit d = HashUtils.hexDigit e) : d = e := by
  unfold HashUtils.hexDigit at h
  split at h <;> split at h <;> rw [Fin.mk.injEq] at h <;> omega

theorem hexEncode_injOn {m n : Nat} (hm : m < 4096) (hn : n < 4096)
    (h : HashUtils.hexEncode m = HashUtils.hexEncode n) : m = n := by
  unfold HashUtils.hexEncode at h
  have h3 := List.append_cancel_left h
  have e2 : HashUtils.hexDigit (m / 256) = HashUtils.hexDigit (n / 256) := by
    simpa using congrArg (fun l => l.getD 0 0) h3
  have e1 : HashUtils.hexDigit (m / 16 % 16) = HashUtils.hexDigit (n / 16 % 16) := by
    simpa using congrArg (fun l => l.getD 1 0) h3
  have e0 : HashUtils.hexDigit (m % 16) = HashUtils.hexDigit (n % 16) := by
    simpa using congrArg (fun l => l.getD 2 0) h3
  have d2 := hexDigit_injOn (by omega) (by omega) e2
  have d1 := hexDigit_injOn (by omega) (by omega) e1
  have d0 := hexDigit_injOn (by omega) (by omega) e0
  omega

theorem sha256_length (p : List Byte) : (HashUtils.sha256 p).length = 64 := by
  simp [HashUtils.sha256, HashUtils.hexEncode]

/-- The modelled digest separates a buffer from any single-byte
modification of it. -/
theorem sha256_set_ne (p : List Byte) (i : Nat) (v : Byte)
    (hi : i < p.length) (hv : p.getD i 0 ≠ v) :
    HashUtils.sha256 (p.set i v) ≠ HashUtils.sha256 p := by
  intro h
  exact polyDigest_set_ne p i v hi hv
    (hexEncode_injOn (by have := polyDigest_lt (p.set i v); omega)
      (by have := polyDigest_lt p; omega) h)

/-! ## Record and header layout lemmas -/

theorem encodeRecord_length (g : Game) : (encodeRecord g).length = 2151 := by
  simp [encodeRecord, List.length_append, encInt32_length, cstrWrite_length,
    length_toBytesLE]

theorem encodeHeader_length (h : BinaryFileHeader) : (encodeHeader h).length = 100 := by
  simp only [encodeHeader, List.length_append, length_toBytesLE, List.length_replicate,
    List.length_take]
  omega

theorem defaultHeaderBytes_length : defaultHeaderBytes.length = 100 :=
  encodeHeader_length _

theorem defaultRecordBytes_length : defaultRecordBytes.length = 2151 :=
  encodeRecord_length _

theorem sliceAt_append_left {a : List Byte} (b : List Byte) {k : Nat}
    (h : a.length = k) : sliceAt (a ++ b) 0 k = a := by
  unfold sliceAt
  rw [List.drop_zero, List.take_left' h]

/-- Decoding the encoding of a record recovers every field of a valid
game. -/
theorem decodeRecordFull_encodeRecord {g : Game} (h : ValidGame g) :
    decodeRecordFull (encodeRecord g) = g := by
  obtain ⟨hid1, hid2, hnm1, hnm2, hds, hru, hvr, hge1, hge2, hurl1, hurl2,
    huid1, huid2, hr1, hr2, hno1, hno2, htg1, htg2⟩ := h
  have h64 : (256 : Nat) ^ 8 = 18446744073709551616 := by norm_num
  unfold decodeRecordFull encodeRecord
  simp only [sliceAt, byteAt, List.drop_append_eq_append_drop, List.take_append_eq_append_take,
    List.length_drop, List.length_append, List.length_take, encInt32_length, cstrWrite_length,
    length_toBytesLE, List.length_cons, List.length_nil, List.drop_eq_nil_of_le,
    List.take_of_length_le, List.length_replicate, List.nil_append, List.append_nil,
    List.drop_zero, List.take_zero, List.singleton_append, List.cons_append,
    List.headD_cons, List.take_nil, List.drop_nil, Nat.reduceAdd, Nat.reduceSub,
    Nat.reduceLeDiff, Nat.le_refl, le_refl]
  rw [decInt32_encInt32 hid1 hid2, decInt32_encInt32 huid1 huid2, decInt32_encInt32 hr1 hr2,
    cstrRead_cstrWrite hnm1 (by omega), cstrRead_cstrWrite hge1 (by omega),
    cstrRead_cstrWrite hurl1 (by omega), cstrRead_cstrWrite hno1 (by omega),
    cstrRead_cstrWrite htg1 (by omega),
    fromBytesLE_toBytesLE (show g.disk_space < 256 ^ 8 by omega),
    fromBytesLE_toBytesLE (show g.ram_usage < 256 ^ 8 by omega),
    fromBytesLE_toBytesLE (show g.vram_required < 256 ^ 8 by omega),
    boolByte_bne, boolByte_bne, boolByte_bne]

/-- Decoding the encoding of a header recovers its fields when they are
in range and the hash fills the slot exactly. -/
theorem decodeHeader_encodeHeader {h : BinaryFileHeader} (hm : h.magic < 4294967296)
    (hv : h.version < 65536) (hc : h.record_count < 4294967296)
    (hh : h.hash.length = 64) : decodeHeader (encodeHeader h) = h := by
  have h4 : (256 : Nat) ^ 4 = 4294967296 := by norm_num
  have h2 : (256 : Nat) ^ 2 = 65536 := by norm_num
  unfold decodeHeader encodeHeader
  simp only [sliceAt, byteAt, List.drop_append_eq_append_drop, List.take_append_eq_append_take,
    List.length_drop, List.length_append, List.length_take, length_toBytesLE, hh,
    List.length_replicate, List.drop_eq_nil_of_le, List.take_of_length_le,
    List.nil_append, List.append_nil, List.drop_zero, List.take_zero, List.take_nil,
    List.drop_nil, Nat.reduceAdd, Nat.reduceSub, Nat.reduceLeDiff, Nat.le_refl, le_refl,
    Nat.min_self]
  rw [fromBytesLE_toBytesLE (by omega), fromBytesLE_toBytesLE (by omega),
    fromBytesLE_toBytesLE (by omega)]

/-! ## Payload lemmas -/

theorem payloadOf_nil : payloadOf [] = [] := rfl

theorem payloadOf_cons (g : Game) (R : List Game) :
    payloadOf (g :: R) = encodeRecord g ++ payloadOf R := by
  simp [payloadOf]

theorem payloadOf_length (R : List Game) : (payloadOf R).length = R.length * 2151 := by
  induction R with
  | nil => rfl
  | cons g t ih =>
    rw [payloadOf_cons]
    simp only [List.length_append, encodeRecord_length, ih, List.length_cons]
    ring

theorem payloadOf_slice (R : List Game) (i : Nat) (hi : i < R.length) :
    sliceAt (payloadOf R) (i * 2151) 2151 = encodeRecord R[i] := by
  induction R generalizing i with
  | nil => simp at hi
  | cons g t ih =>
    cases i with
    | zero =>
      rw [payloadOf_cons]
      simpa using sliceAt_append_left (payloadOf t) (encodeRecord_length g)
    | succ i =>
      rw [payloadOf_cons,
        sliceAt_append_shift _ 2151 (by rw [encodeRecord_length]; omega)]
      have harith : (i + 1) * 2151 - (encodeRecord g).length = i * 2151 := by
        rw [encodeRecord_length]; omega
      rw [harith, ih i (by simpa using hi)]
      simp

/-! ## Writer lemmas -/

theorem writeGamesToFile_length (R : List Game) :
    (writeGamesToFile R).length = 100 + R.length * 2151 := by
  simp [writeGamesToFile, List.length_append, encodeHeader_length, payloadOf_length]

theorem writeGamesToFile_take (R : List Game) :
    (writeGamesToFile R).take 100 =
      encodeHeader ⟨FILE_MAGIC, FILE_VERSION, R.length, HashUtils.sha256 (payloadOf R)⟩ := by
  rw [writeGamesToFile]
  exact List.take_left' (encodeHeader_length _)

theorem writeGamesToFile_drop (R : List Game) :
    (writeGamesToFile R).drop 100 = payloadOf R := by
  rw [writeGamesToFile]
  exact List.drop_left' (encodeHeader_length _)

theorem decodeHeader_write (R : List Game) (hR : R.length < 4294967296) :
    decodeHeader ((writeGamesToFile R).take 100) =
      ⟨FILE_MAGIC, FILE_VERSION, R.length, HashUtils.sha256 (payloadOf R)⟩ := by
  rw [writeGamesToFile_take]
  exact decodeHeader_encodeHeader (by norm_num [FILE_MAGIC]) (by norm_num [FILE_VERSION])
    hR (sha256_length _)

theorem header_payload_length (H : BinaryFileHeader) (R : List Game) :
    (encodeHeader H ++ payloadOf R).length = 100 + R.length * 2151 := by
  simp [List.length_append, encodeHeader_length, payloadOf_length]

theorem decodeHeader_header_payload (H : BinaryFileHeader) (R : List Game)
    (hm : H.magic < 4294967296) (hv : H.version < 65536)
    (hc : H.record_count < 4294967296) (hh : H.hash.length = 64) :
    decodeHeader ((encodeHeader H ++ payloadOf R).take 100) = H := by
  rw [List.take_left' (encodeHeader_length _)]
  exact decodeHeader_encodeHeader hm hv hc hh

/-- A file carrying a well-formed header with any accepted version (3 or
the legacy 1), the correct record count and the payload digest verifies
as `OK`: the verifier's size check and digest are always taken over
current-shape records, whatever the version says. -/
theorem verify_header_payload (ver : Nat) (hver : ver = FILE_VERSION ∨ ver = 1)
    (R : List Game) (hR : R.length < 4294967296) :
    verifyBinaryFile (some (encodeHeader
      ⟨FILE_MAGIC, ver, R.length, HashUtils.sha256 (payloadOf R)⟩ ++ payloadOf R)) =
      .ok := by
  have hver' : ver < 65536 := by rcases hver with h | h <;> simp [h, FILE_VERSION]
  have hlen := header_payload_length ⟨FILE_MAGIC, ver, R.length,
    HashUtils.sha256 (payloadOf R)⟩ R
  have hdh := decodeHeader_header_payload ⟨FILE_MAGIC, ver, R.length,
    HashUtils.sha256 (payloadOf R)⟩ R (by norm_num [FILE_MAGIC]) hver' hR (sha256_length _)
  simp only [verifyBinaryFile, hdh]
  rw [if_neg (by omega), if_neg (by simp),
    if_neg (by rcases hver with h | h <;> simp [h]),
    if_neg (by omega),
    if_neg (by rw [List.drop_left' (encodeHeader_length _)]
               rw [List.take_of_length_le (le_of_eq (payloadOf_length R))]
               simp)]

/-- A file produced by the writer always verifies as `OK`. -/
theorem verify_write (R : List Game) (hR : R.length < 4294967296) :
    verifyBinaryFile (some (writeGamesToFile R)) = .ok :=
  verify_header_payload FILE_VERSION (Or.inl rfl) R hR

/-! ## Reader lemmas -/

theorem headerReadBytes_of_le {bytes : List Byte} (h : 100 ≤ bytes.length) :
    headerReadBytes bytes = bytes.take 100 := by
  unfold headerReadBytes
  rw [List.drop_eq_nil_of_le (by rw [defaultHeaderBytes_length]; omega), List.append_nil]

/-- On a file long enough to hold its declared records, the preview
reader's stream mechanics collapse to clean slices: it returns exactly
the full-fidelity decode of each stored record, gated only on the magic
value. -/
theorem readBinaryFile_complete {bytes : List Byte}
    (hlen : 100 ≤ bytes.length)
    (hmagic : (decodeHeader (bytes.take 100)).magic = FILE_MAGIC)
    (hfull : 100 + (decodeHeader (bytes.take 100)).record_count * 2151 ≤ bytes.length) :
    readBinaryFile (some bytes) =
      (List.range (decodeHeader (bytes.take 100)).record_count).map
        (fun i => decodeRecordFull (sliceAt bytes (100 + i * 2151) 2151)) := by
  simp only [readBinaryFile, headerReadBytes_of_le hlen, hmagic, ne_eq,
    not_true_eq_false, if_false]
  apply List.map_congr_left
  intro i hi
  have hi' : i < (decodeHeader (bytes.take 100)).record_count := List.mem_range.mp hi
  rw [if_neg (by omega)]
  unfold recordReadBytes sliceAt
  have hnil : defaultRecordBytes.drop (bytes.length - (100 + i * 2151)) = [] :=
    List.drop_eq_nil_of_le (by rw [defaultRecordBytes_length]; omega)
  rw [hnil, List.append_nil]

/-- Reading back a header-plus-payload file recovers every valid record,
whatever version and hash slot the header carries: the preview reader
selects no layout from the version and checks no digest. -/
theorem read_header_payload (ver : Nat) (hver : ver < 65536) (hash : List Byte)
    (hh : hash.length = 64) (R : List Game) (hval : ∀ g ∈ R, ValidGame g)
    (hR : R.length < 4294967296) :
    readBinaryFile (some (encodeHeader ⟨FILE_MAGIC, ver, R.length, hash⟩ ++
      payloadOf R)) = R := by
  have hlen := header_payload_length ⟨FILE_MAGIC, ver, R.length, hash⟩ R
  have hdh := decodeHeader_header_payload ⟨FILE_MAGIC, ver, R.length, hash⟩ R
    (by norm_num [FILE_MAGIC]) hver hR hh
  rw [readBinaryFile_complete (by omega) (by rw [hdh]) (by rw [hdh]; dsimp only; omega),
    hdh]
  dsimp only
  apply List.ext_getElem?
  intro n
  rcases Nat.lt_or_ge n R.length with hn | hn
  · rw [List.getElem?_map, List.getElem?_range hn, Option.map_some']
    have hshift : sliceAt (encodeHeader ⟨FILE_MAGIC, ver, R.length, hash⟩ ++
        payloadOf R) (100 + n * 2151) 2151 = sliceAt (payloadOf R) (n * 2151) 2151 := by
      rw [sliceAt_append_shift _ 2151 (by rw [encodeHeader_length]; omega),
        encodeHeader_length]
      congr 1
      omega
    rw [hshift, payloadOf_slice R n hn,
      decodeRecordFull_encodeRecord (hval _ (List.getElem_mem hn)),
      List.getElem?_eq_getElem hn]
  · rw [List.getElem?_eq_none (by simpa using hn),
      List.getElem?_eq_none (by simpa using hn)]

/-- Round trip through the writer and the preview reader. -/
theorem read_write_roundtrip (R : List Game) (hval : ∀ g ∈ R, ValidGame g)
    (hR : R.length < 4294967296) :
    readBinaryFile (some (writeGamesToFile R)) = R :=
  read_header_payload FILE_VERSION (by norm_num [FILE_VERSION])
    (HashUtils.sha256 (payloadOf R)) (sha256_length _) R hval hR

/-! ## Tampering and import lemmas -/

theorem set_append_right (a b : List Byte) (n : Nat) (x : Byte) (h : a.length ≤ n) :
    (a ++ b).set n x = a ++ b.set (n - a.length) x := by
  induction a generalizing n with
  | nil => simp
  | cons c t ih =>
    cases n with
    | zero => simp at h
    | succ m =>
      have h' : t.length ≤ m := by simpa using h
      calc ((c :: t) ++ b).set (m + 1) x = c :: ((t ++ b).set m x) := by
            simp [List.set_cons_succ]
        _ = c :: (t ++ b.set (m - t.length) x) := by rw [ih m h']
        _ = (c :: t) ++ b.set (m + 1 - (c :: t).length) x := by
            rw [List.length_cons, show m + 1 - (t.length + 1) = m - t.length from by omega]
            simp

/-- Changing one payload byte of a written file turns verification into
`HashMismatch`: the header still parses, magic and version still pass,
the size check still passes, but the recomputed digest no longer matches
the stored slot. -/
theorem verify_write_tampered (R : List Game) (hR : R.length < 4294967296)
    (i : Nat) (v : Byte) (hi : i < (payloadOf R).length)
    (hv : (payloadOf R).getD i 0 ≠ v) :
    verifyBinaryFile (some ((writeGamesToFile R).set (100 + i) v)) = .hashMismatch := by
  have hset : (writeGamesToFile R).set (100 + i) v =
      encodeHeader ⟨FILE_MAGIC, FILE_VERSION, R.length, HashUtils.sha256 (payloadOf R)⟩ ++
        (payloadOf R).set i v := by
    rw [writeGamesToFile, set_append_right _ _ _ _ (by rw [encodeHeader_length]; omega),
      encodeHeader_length]
    congr 2
    omega
  have hplen : ((payloadOf R).set i v).length = R.length * 2151 := by
    rw [List.length_set, payloadOf_length]
  have hlen : (encodeHeader ⟨FILE_MAGIC, FILE_VERSION, R.length,
      HashUtils.sha256 (payloadOf R)⟩ ++ (payloadOf R).set i v).length =
      100 + R.length * 2151 := by
    simp [List.length_append, encodeHeader_length, hplen]
  have hdh : decodeHeader ((encodeHeader ⟨FILE_MAGIC, FILE_VERSION, R.length,
      HashUtils.sha256 (payloadOf R)⟩ ++ (payloadOf R).set i v).take 100) =
      ⟨FILE_MAGIC, FILE_VERSION, R.length, HashUtils.sha256 (payloadOf R)⟩ := by
    rw [List.take_left' (encodeHeader_length _)]
    exact decodeHeader_encodeHeader (by norm_num [FILE_MAGIC]) (by norm_num [FILE_VERSION])
      hR (sha256_length _)
  rw [hset]
  simp only [verifyBinaryFile, hdh]
  rw [if_neg (by omega), if_neg (by simp), if_neg (by simp), if_neg (by omega),
    if_pos (by
      rw [List.drop_left' (encodeHeader_length _)]
      rw [List.take_of_length_le (le_of_eq hplen)]
      exact sha256_set_ne (payloadOf R) i v hi hv)]

theorem importFromBinaryFile_ok {bytes : List Byte} (uid : Int)
    (h : verifyBinaryFile (some bytes) = .ok) :
    importFromBinaryFile (some bytes) uid =
      ⟨true,
        (List.range (decodeHeader (headerReadBytes bytes)).record_count).map fun i =>
          decodeRecordImport uid
            (if bytes.length < 100 then defaultRecordBytes else recordReadBytes bytes i),
        none⟩ := by
  simp only [importFromBinaryFile]
  rw [if_pos h]

theorem importFromBinaryFile_fail (file : Option (List Byte)) (uid : Int)
    (h : verifyBinaryFile file ≠ .ok) :
    importFromBinaryFile file uid =
      ⟨false, [], some (getVerificationErrorText (verifyBinaryFile file))⟩ := by
  cases file with
  | none => rfl
  | some bytes =>
    simp only [importFromBinaryFile]
    rw [if_neg h]

set_option maxRecDepth 100000

theorem decodeHeader_magic_take (bytes : List Byte) :
    (decodeHeader (bytes.take 100)).magic = fromBytesLE (bytes.take 4) := by
  simp only [decodeHeader, sliceAt, List.drop_zero, List.take_take]
  norm_num

theorem decodeRecordFull_default : decodeRecordFull defaultRecordBytes = defaultGame :=
  decodeRecordFull_encodeRecord (by decide)

theorem sliceAt_encodeRecord_name (g : Game) :
    sliceAt (encodeRecord g) 4 256 = cstrWrite 256 g.name := by
  unfold encodeRecord
  simp only [sliceAt, List.drop_append_eq_append_drop, List.take_append_eq_append_take,
    List.length_drop, List.length_append, List.length_take, encInt32_length, cstrWrite_length,
    length_toBytesLE, List.length_cons, List.length_nil, List.drop_eq_nil_of_le,
    List.take_of_length_le, List.length_replicate, List.nil_append, List.append_nil,
    List.drop_zero, List.take_zero, List.singleton_append, List.cons_append,
    List.headD_cons, List.take_nil, List.drop_nil, Nat.reduceAdd, Nat.reduceSub,
    Nat.reduceLeDiff, Nat.le_refl, le_refl]

set_option maxRecDepth 100000

/-! ## The claims -/

/-- C1 (counterexample): a version-1 snapshot holding one legacy-shape
(865-byte) record with the correct digest of that payload does not
verify as `OK`: `verifyBinaryFile` accepts version 1 in its version gate
but sizes the payload read by the current 2151-byte record shape, so the
legacy file is a short read and yields `ReadError`. -/
theorem claim_C1_counterexample :
    verifyBinaryFile (some legacyV1File) = .readError := by
  have hlr : legacyRecordBytes.length = 865 := by simp [legacyRecordBytes]
  have hlen : legacyV1File.length = 965 := by
    simp [legacyV1File, List.length_append, encodeHeader_length, hlr]
  have hdh : decodeHeader (legacyV1File.take 100) =
      ⟨FILE_MAGIC, 1, 1, HashUtils.sha256 legacyRecordBytes⟩ := by
    rw [legacyV1File, List.take_left' (encodeHeader_length _)]
    exact decodeHeader_encodeHeader (by norm_num [FILE_MAGIC]) (by norm_num) (by norm_num)
      (sha256_length _)
  simp only [verifyBinaryFile, hdh]
  rw [if_neg (by omega), if_neg (by simp), if_neg (by simp), if_pos (by omega)]

/-- C1 (amended): `verifyBinaryFile` accepts version 1 in its version
gate, but the payload size check and the decoders always use the current
record shape: a version-1 file whose payload consists of current-shape
records verifies `OK` and `readBinaryFile` decodes it field-for-field
with the current layout — the reader never selects a layout from the
header's version (a version-1 file of legacy-shape records instead fails
with `ReadError`, see the counterexample). -/
theorem claim_C1_amended (R : List Game) (hval : ∀ g ∈ R, ValidGame g)
    (hR : R.length < 4294967296) :
    verifyBinaryFile (some (writeV1GamesToFile R)) = .ok ∧
    readBinaryFile (some (writeV1GamesToFile R)) = R :=
  ⟨verify_header_payload 1 (Or.inr rfl) R hR,
   read_header_payload 1 (by norm_num) (HashUtils.sha256 (payloadOf R)) (sha256_length _)
     R hval hR⟩

/-- C1 (witness): the amended statement at a concrete one-record list. -/
theorem claim_C1_witness :
    (∀ g ∈ [sampleGame], ValidGame g) ∧ ([sampleGame] : List Game).length < 4294967296 ∧
    verifyBinaryFile (some (writeV1GamesToFile [sampleGame])) = .ok ∧
    readBinaryFile (some (writeV1GamesToFile [sampleGame])) = [sampleGame] := by
  have h := claim_C1_amended [sampleGame] (by decide) (by decide)
  exact ⟨by decide, by decide, h.1, h.2⟩

/-- C2: a file that contains a full header whose first four bytes do not
hold the magic constant verifies as `InvalidMagic`, and a file with a
wrong magic — whatever its length, version field or hash slot — is never
classified `InvalidVersion` or `HashMismatch` (a file too short for even
the header read is `ReadError`). -/
theorem claim_C2_magic_gate (bytes : List Byte)
    (hm : fromBytesLE (bytes.take 4) ≠ FILE_MAGIC) :
    (100 ≤ bytes.length → verifyBinaryFile (some bytes) = .invalidMagic) ∧
    verifyBinaryFile (some bytes) ≠ .invalidVersion ∧
    verifyBinaryFile (some bytes) ≠ .hashMismatch := by
  have hmg := decodeHeader_magic_take bytes
  by_cases hl : bytes.length < 100
  · have hv : verifyBinaryFile (some bytes) = .readError := by
      simp only [verifyBinaryFile]
      rw [if_pos hl]
    exact ⟨fun hlen => absurd hl (by omega), by simp [hv], by simp [hv]⟩
  · have hv : verifyBinaryFile (some bytes) = .invalidMagic := by
      simp only [verifyBinaryFile]
      rw [if_neg hl, if_pos (by rw [hmg]; exact hm)]
    exact ⟨fun _ => hv, by simp [hv], by simp [hv]⟩

/-- C2 (witness): the all-zero 100-byte file has wrong magic and is
classified `InvalidMagic`, not `InvalidVersion` or `HashMismatch`. -/
theorem claim_C2_witness :
    fromBytesLE (zeroHeaderFile.take 4) ≠ FILE_MAGIC ∧
    verifyBinaryFile (some zeroHeaderFile) = .invalidMagic ∧
    verifyBinaryFile (some zeroHeaderFile) ≠ .invalidVersion ∧
    verifyBinaryFile (some zeroHeaderFile) ≠ .hashMismatch := by
  have h := claim_C2_magic_gate zeroHeaderFile (by decide)
  exact ⟨by decide, h.1 (by decide), h.2.1, h.2.2⟩

/-- C3: writing a list of games whose text fields are NUL-free and within
capacity (and whose numeric fields are in their machine ranges) and
preview-reading the file back returns the list field-for-field, ids,
owners, rating, flags, notes and tags included. -/
theorem claim_C3_roundtrip (R : List Game) (hval : ∀ g ∈ R, ValidGame g)
    (hR : R.length < 4294967296) :
    readBinaryFile (some (writeGamesToFile R)) = R :=
  read_write_roundtrip R hval hR

/-- C3 (witness): the round trip at a concrete one-record list. -/
theorem claim_C3_witness :
    (∀ g ∈ [sampleGame], ValidGame g) ∧ ([sampleGame] : List Game).length < 4294967296 ∧
    readBinaryFile (some (writeGamesToFile [sampleGame])) = [sampleGame] :=
  ⟨by decide, by decide, claim_C3_roundtrip [sampleGame] (by decide) (by decide)⟩

/-- C4: a written file verifies `OK`, and replacing any single payload
byte (any byte after the 100-byte header) with a different value turns
the verification outcome into `HashMismatch`. -/
theorem claim_C4_tamper (R : List Game) (hR : R.length < 4294967296) (i : Nat) (v : Byte)
    (hi : i < (payloadOf R).length) (hv : (payloadOf R).getD i 0 ≠ v) :
    verifyBinaryFile (some (writeGamesToFile R)) = .ok ∧
    verifyBinaryFile (some ((writeGamesToFile R).set (100 + i) v)) = .hashMismatch :=
  ⟨verify_write R hR, verify_write_tampered R hR i v hi hv⟩

/-- C4 (witness): flipping the first payload byte of a concrete written
file turns `OK` into `HashMismatch`. -/
theorem claim_C4_witness :
    ([sampleGame] : List Game).length < 4294967296 ∧
    0 < (payloadOf [sampleGame]).length ∧
    (payloadOf [sampleGame]).getD 0 0 ≠ 9 ∧
    verifyBinaryFile (some (writeGamesToFile [sampleGame])) = .ok ∧
    verifyBinaryFile (some ((writeGamesToFile [sampleGame]).set (100 + 0) 9)) =
      .hashMismatch := by
  have hpl : 0 < (payloadOf [sampleGame]).length := by
    rw [payloadOf_length]; norm_num
  have hgd : (payloadOf [sampleGame]).getD 0 0 ≠ 9 := by decide
  have h := claim_C4_tamper [sampleGame] (by decide) 0 9 hpl hgd
  exact ⟨by decide, hpl, hgd, h.1, h.2⟩

/-- C5: exporting the empty list yields a file whose decoded header has
`record_count = 0` and whose 64-byte hash slot holds exactly the digest
of the empty payload, and the file verifies as `OK`. -/
theorem claim_C5_empty :
    (decodeHeader ((writeGamesToFile []).take 100)).record_count = 0 ∧
    (decodeHeader ((writeGamesToFile []).take 100)).hash = HashUtils.sha256 [] ∧
    verifyBinaryFile (some (writeGamesToFile [])) = .ok := by
  have hdh := decodeHeader_write [] (by norm_num)
  refine ⟨?_, ?_, verify_write [] (by norm_num)⟩
  · simp [hdh]
  · simp [hdh, payloadOf]

/-- C6: encoding a game whose NUL-free name exceeds the 256-byte name
field and decoding the on-disk record yields exactly the first 255 bytes
of the name; no error or truncation signal exists in the codec. -/
theorem claim_C6_truncation (g : Game) (h1 : NoNul g.name) (h2 : 256 < g.name.length) :
    (decodeRecordFull (encodeRecord g)).name = g.name.take 255 := by
  have hex : ∀ bs : List Byte, (decodeRecordFull bs).name = cstrRead (sliceAt bs 4 256) :=
    fun bs => rfl
  have hw : cstrWrite 256 g.name =
      g.name.take 255 ++
        List.replicate (256 - (g.name.take 255).length) 0 := by
    unfold cstrWrite
    rw [takeWhile_eq_self_of_noNul h1]
  rw [hex (encodeRecord g), sliceAt_encodeRecord_name, hw]
  exact cstrRead_append_zeros (fun b hb => h1 b (List.mem_of_mem_take hb)) _

/-- C6 (witness): a 257-byte name comes back as its first 255 bytes. -/
theorem claim_C6_witness :
    NoNul longNameGame.name ∧ 256 < longNameGame.name.length ∧
    (decodeRecordFull (encodeRecord longNameGame)).name = longNameGame.name.take 255 :=
  ⟨by decide, by decide, claim_C6_truncation longNameGame (by decide) (by decide)⟩

/-- C7: when a file verifies `OK`, every game the importer hands to the
store carries the caller-supplied owner id — whatever `user_id` values
the file stores — and the default (unset) identifier 0. -/
theorem claim_C7_rehoming (file : Option (List Byte)) (uid : Int)
    (h : verifyBinaryFile file = .ok) :
    ∀ g ∈ (importFromBinaryFile file uid).added, g.user_id = uid ∧ g.id = 0 := by
  cases file with
  | none => exact absurd h (by simp [verifyBinaryFile])
  | some bytes =>
    rw [importFromBinaryFile_ok uid h]
    intro g hg
    obtain ⟨i, hi, rfl⟩ := List.mem_map.mp hg
    exact ⟨rfl, rfl⟩

/-- C7 (witness): importing a file written with owner 7 and id 5 under
owner 42 re-homes every inserted record to 42 with identifier 0. -/
theorem claim_C7_witness :
    verifyBinaryFile (some (writeGamesToFile [sampleGame])) = .ok ∧
    ∀ g ∈ (importFromBinaryFile (some (writeGamesToFile [sampleGame])) 42).added,
      g.user_id = 42 ∧ g.id = 0 :=
  ⟨verify_write [sampleGame] (by norm_num),
   claim_C7_rehoming _ 42 (verify_write [sampleGame] (by norm_num))⟩

/-- C8: the preview reader requires no `OK` verification — a wrong magic
returns the empty list, and with a correct magic it decodes all declared
records with full field fidelity whatever the version and hash slot say;
the importer instead aborts with the verification outcome's error text
and hands nothing to the store whenever the outcome is not `OK`. -/
theorem claim_C8_asymmetry :
    (∀ bytes : List Byte, (decodeHeader (headerReadBytes bytes)).magic ≠ FILE_MAGIC →
      readBinaryFile (some bytes) = []) ∧
    (∀ bytes : List Byte, 100 ≤ bytes.length →
      (decodeHeader (bytes.take 100)).magic = FILE_MAGIC →
      100 + (decodeHeader (bytes.take 100)).record_count * 2151 ≤ bytes.length →
      readBinaryFile (some bytes) =
        (List.range (decodeHeader (bytes.take 100)).record_count).map fun i =>
          decodeRecordFull (sliceAt bytes (100 + i * 2151) 2151)) ∧
    (∀ (file : Option (List Byte)) (uid : Int), verifyBinaryFile file ≠ .ok →
      importFromBinaryFile file uid =
        ⟨false, [], some (getVerificationErrorText (verifyBinaryFile file))⟩) := by
  refine ⟨?_, fun bytes h1 h2 h3 => readBinaryFile_complete h1 h2 h3,
    fun file uid h => importFromBinaryFile_fail file uid h⟩
  intro bytes h
  simp only [readBinaryFile]
  rw [if_pos h]

/-- C8 (witness): a file with correct magic, unaccepted version 99 and a
zeroed hash slot is still decoded by the preview reader, while importing
an unopenable file aborts with the outcome's error text and no
insert. -/
theorem claim_C8_witness :
    (100 ≤ badVersionFile.length ∧
     (decodeHeader (badVersionFile.take 100)).magic = FILE_MAGIC ∧
     100 + (decodeHeader (badVersionFile.take 100)).record_count * 2151 ≤
       badVersionFile.length ∧
     verifyBinaryFile (some badVersionFile) = .invalidVersion ∧
     readBinaryFile (some badVersionFile) =
       (List.range (decodeHeader (badVersionFile.take 100)).record_count).map fun i =>
         decodeRecordFull (sliceAt badVersionFile (100 + i * 2151) 2151)) ∧
    (verifyBinaryFile none ≠ .ok ∧
     importFromBinaryFile none 5 =
       ⟨false, [], some (getVerificationErrorText (verifyBinaryFile none))⟩) := by
  have hlen : badVersionFile.length = 2251 := by
    rw [badVersionFile, header_payload_length]
    norm_num
  have hdh : decodeHeader (badVersionFile.take 100) =
      ⟨FILE_MAGIC, 99, 1, List.replicate 64 0⟩ := by
    rw [badVersionFile]
    exact decodeHeader_header_payload _ _ (by norm_num [FILE_MAGIC]) (by norm_num)
      (by norm_num) (by simp)
  have hver : verifyBinaryFile (some badVersionFile) = .invalidVersion := by
    simp only [verifyBinaryFile, hdh]
    rw [if_neg (by omega), if_neg (by simp), if_pos (by norm_num [FILE_VERSION])]
  refine ⟨⟨by omega, by rw [hdh], by rw [hdh]; dsimp only; omega, hver,
    claim_C8_asymmetry.2.1 badVersionFile (by omega) (by rw [hdh])
      (by rw [hdh]; dsimp only; omega)⟩,
    by decide, claim_C8_asymmetry.2.2 none 5 (by decide)⟩

/-- C9: verification is a pure total function of the file's bytes —
calling it twice on unchanged bytes gives equal outcomes — and every
call produces exactly one value of the closed outcome set, never a
thrown fault. -/
theorem claim_C9_determinism (file : Option (List Byte)) :
    verifyBinaryFile file = verifyBinaryFile file ∧
    (verifyBinaryFile file = .ok ∨ verifyBinaryFile file = .fileNotFound ∨
     verifyBinaryFile file = .invalidMagic ∨ verifyBinaryFile file = .invalidVersion ∨
     verifyBinaryFile file = .hashMismatch ∨ verifyBinaryFile file = .readError) := by
  refine ⟨rfl, ?_⟩
  cases hv : verifyBinaryFile file <;> simp

/-- C10: on a file with correct magic that is shorter than a header plus
`record_count` current-shape records, the preview reader still returns
exactly `record_count` games, and every record lying at or past the end
of the file comes back as the decode of an untouched default-constructed
record, i.e. the default game; no read failure is ever checked. -/
theorem claim_C10_short_file (bytes : List Byte) (h1 : 100 ≤ bytes.length)
    (h2 : (decodeHeader (bytes.take 100)).magic = FILE_MAGIC)
    (h3 : bytes.length < 100 + (decodeHeader (bytes.take 100)).record_count * 2151) :
    (readBinaryFile (some bytes)).length = (decodeHeader (bytes.take 100)).record_count ∧
    ∀ j, j < (decodeHeader (bytes.take 100)).record_count →
      bytes.length ≤ 100 + j * 2151 →
      (readBinaryFile (some bytes))[j]? = some defaultGame := by
  simp only [readBinaryFile, headerReadBytes_of_le h1, h2, ne_eq, not_true_eq_false,
    if_false]
  constructor
  · simp
  · intro j hj hle
    rw [List.getElem?_map, List.getElem?_range hj, Option.map_some']
    rw [if_neg (by omega)]
    unfold recordReadBytes
    rw [List.drop_eq_nil_of_le hle, List.take_nil,
      show bytes.length - (100 + j * 2151) = 0 from by omega, List.drop_zero,
      List.nil_append, decodeRecordFull_default]

/-- C10 (witness): a bare header declaring two records yields two games,
the first being the default game. -/
theorem claim_C10_witness :
    (100 ≤ headerOnlyTwo.length ∧
     (decodeHeader (headerOnlyTwo.take 100)).magic = FILE_MAGIC ∧
     headerOnlyTwo.length < 100 + (decodeHeader (headerOnlyTwo.take 100)).record_count * 2151) ∧
    (readBinaryFile (some headerOnlyTwo)).length = 2 ∧
    (readBinaryFile (some headerOnlyTwo))[0]? = some defaultGame := by
  have hlen : headerOnlyTwo.length = 100 := encodeHeader_length _
  have hdh : decodeHeader (headerOnlyTwo.take 100) =
      ⟨FILE_MAGIC, FILE_VERSION, 2, List.replicate 64 0⟩ := by
    rw [headerOnlyTwo, List.take_of_length_le (le_of_eq (encodeHeader_length _))]
    exact decodeHeader_encodeHeader (by norm_num [FILE_MAGIC]) (by norm_num [FILE_VERSION])
      (by norm_num) (by simp)
  have h := claim_C10_short_file headerOnlyTwo (by omega) (by rw [hdh])
    (by rw [hdh]; dsimp only; omega)
  exact ⟨⟨by omega, by rw [hdh], by rw [hdh]; dsimp only; omega⟩,
    by rw [h.1, hdh], h.2 0 (by simp [hdh]) (by omega)⟩

end Temporium
